import Mathlib

/-!
Shallow embedding of the Secure Media Vault backend resolvers
(`src/graphql/resolvers.ts`) and the supporting modules.

The database (three tables: `asset`, `upload_ticket`, `asset_share`) is
modelled as lists of records; Supabase query combinators `.eq(..).single()`
become `List.find?`, `.update(..).eq(..)` becomes a guarded `List.map`,
`.delete().eq(..)` a `List.filter`, and `.insert` / `.upsert` list appends.
External primitives (wall-clock time, `crypto.randomUUID`, `crypto.randomBytes`,
SHA-256 hashing, Unicode NFKC normalization, signed-URL issuance by the object
store, object download, and the identity provider's user directory) are fields
of an `Env` record so every resolver is a pure function
`Env → DB → … → DB × Except ErrCode α`; a thrown GraphQL error becomes
`Except.error` of the error's `extensions.code`, and database writes performed
before a throw persist in the returned `DB`.
-/

namespace SecureMediaVault

/-- Asset lifecycle states: `status` column of the `asset` table
(`"uploading" | "ready" | "corrupt"`). -/
inductive Status
  | uploading
  | ready
  | corrupt
deriving DecidableEq, Repr

/-- The `extensions.code` values thrown by the resolvers. -/
inductive ErrCode
  | unauthenticated
  | notFound
  | forbidden
  | versionConflict
  | badRequest
  | integrityError
deriving DecidableEq, Repr

/-- A row of the `asset` table. `size` and `version` are JS numbers, modelled
as `Int`; timestamps (`created_at`, `updated_at`) are modelled as `Nat`
instants comparable by `<`. -/
structure Asset where
  id : String
  owner_id : String
  filename : String
  mime : String
  size : Int
  storage_path : String
  sha256 : Option String
  status : Status
  version : Int
  created_at : Nat
  updated_at : Nat
deriving DecidableEq, Repr

/-- A row of the `upload_ticket` table. -/
structure UploadTicket where
  asset_id : String
  user_id : String
  nonce : String
  mime : String
  size : Int
  storage_path : String
  expires_at : Nat
  used : Bool
deriving DecidableEq, Repr

/-- A row of the `asset_share` table, composite-keyed by `(asset_id, to_user)`. -/
structure AssetShare where
  asset_id : String
  to_user : String
  can_download : Bool
deriving DecidableEq, Repr

/-- The relational store: the three tables the resolvers touch. -/
structure DB where
  assets : List Asset
  tickets : List UploadTicket
  shares : List AssetShare
deriving DecidableEq, Repr

/-- An entry of the identity provider's user directory
(`supabaseServer.auth.admin.listUsers`): Supabase users may lack an email. -/
structure DirUser where
  id : String
  email : Option String
deriving DecidableEq, Repr

/-- External collaborators and per-request ambient data: current wall-clock
instant, the fresh values `crypto.randomUUID()` / `crypto.randomBytes(32)`
produce for this request, the `YYYY/MM` calendar component of the storage
path (derived from the current date by the JS `Date` API), Unicode NFKC
normalization (`String.prototype.normalize`), SHA-256 over downloaded bytes
(`crypto.createHash`), the object store's download and signed-URL endpoints,
and the first page (at most 200 entries) of the identity provider's user
directory. -/
structure Env where
  now : Nat
  freshId : String
  freshNonce : String
  yearMonth : String
  normalize : String → String
  sha256 : List Nat → String
  download : String → Option (List Nat)
  signUpload : String → Option String
  signRead : String → Nat → Option String
  users : List DirUser

/-- The GraphQL `Asset` object shape the resolvers return
(camel-cased timestamps). -/
structure AssetView where
  id : String
  filename : String
  mime : String
  size : Int
  sha256 : Option String
  status : Status
  version : Int
  createdAt : Nat
  updatedAt : Nat
deriving DecidableEq, Repr

/-- Row-to-GraphQL projection used by every resolver's return block. -/
def Asset.toView (a : Asset) : AssetView :=
  ⟨a.id, a.filename, a.mime, a.size, a.sha256, a.status, a.version,
   a.created_at, a.updated_at⟩

/-- `supabaseServer.from("asset").select("*").eq("id", assetId).single()`. -/
def findAsset (db : DB) (assetId : String) : Option Asset :=
  db.assets.find? (fun a => a.id == assetId)

/-- `supabaseServer.from("upload_ticket").select("*").eq("asset_id", assetId).single()`. -/
def findTicket (db : DB) (assetId : String) : Option UploadTicket :=
  db.tickets.find? (fun t => t.asset_id == assetId)

/-- `supabaseServer.from("asset").update(payload).eq("id", assetId)`. -/
def updateAssets (l : List Asset) (assetId : String) (f : Asset → Asset) : List Asset :=
  l.map (fun a => if a.id == assetId then f a else a)

/-- `supabaseServer.from("upload_ticket").update(payload).eq("asset_id", assetId)`. -/
def updateTickets (l : List UploadTicket) (assetId : String) (f : UploadTicket → UploadTicket) :
    List UploadTicket :=
  l.map (fun t => if t.asset_id == assetId then f t else t)

/-- The record update performed by `finalizeUpload`'s step 4 on the hashing
path: store the server-computed hash, set the status from the hash
comparison, bump the version, refresh `updated_at`. -/
def finalizeUpd (env : Env) (clientSha256 : String) (bytes : List Nat) (version : Int)
    (a : Asset) : Asset :=
  { a with
    sha256 := some (env.sha256 bytes)
    status := if env.sha256 bytes == clientSha256 then Status.ready else Status.corrupt
    version := version + 1
    updated_at := env.now }

/-- `finalizeUpload` resolver (`resolvers.ts` lines 195-340). The returned
`DB` records all writes performed before a throw: marking the asset corrupt
on download failure, and the asset/ticket updates that precede the
hash-mismatch throw. -/
def finalizeUpload (env : Env) (db : DB) (userId : Option String)
    (assetId clientSha256 : String) (version : Int) : DB × Except ErrCode AssetView :=
  match userId with
  | none => (db, .error .unauthenticated)
  | some uid =>
    match findAsset db assetId with
    | none => (db, .error .notFound)
    | some asset =>
      if asset.owner_id ≠ uid then (db, .error .forbidden)
      else if asset.version ≠ version then (db, .error .versionConflict)
      else
        match findTicket db assetId with
        | none => (db, .error .notFound)
        | some ticket =>
          if ticket.user_id ≠ uid then (db, .error .forbidden)
          else if ticket.used then (db, .ok asset.toView)
          else if ticket.expires_at < env.now then (db, .error .badRequest)
          else
            match env.download ticket.storage_path with
            | none =>
              ({ db with
                 assets := updateAssets db.assets assetId
                   (fun a => { a with status := Status.corrupt }) },
               .error .integrityError)
            | some bytes =>
              let db1 : DB :=
                { db with
                  assets := updateAssets db.assets assetId
                    (finalizeUpd env clientSha256 bytes version)
                  tickets := updateTickets db.tickets assetId
                    (fun t => { t with used := true }) }
              if env.sha256 bytes == clientSha256 then
                (db1, .ok (finalizeUpd env clientSha256 bytes version asset).toView)
              else
                (db1, .error .integrityError)

/-- Character-level prefix test, modelling JS `String.prototype.startsWith`. -/
def isPrefixB : List Char → List Char → Bool
  | [], _ => true
  | _ :: _, [] => false
  | a :: as, b :: bs => a == b && isPrefixB as bs

/-- JS `String.prototype.toLowerCase`, modelled character-wise. -/
def toLowerStr (s : String) : String :=
  String.mk (s.data.map Char.toLower)

/-- JS `String.prototype.trim`: drop whitespace from both ends. -/
def trimStr (s : String) : String :=
  String.mk (((s.data.dropWhile Char.isWhitespace).reverse.dropWhile
    Char.isWhitespace).reverse)

/-- The MIME prefixes accepted for upload (`ALLOWED_MIME_PREFIXES`). -/
def allowedMimeList : List String := ["image/", "video/", "application/pdf"]

/-- Size ceiling for uploads: `MAX_SIZE_BYTES = 30 * 1024 * 1024`. -/
def MAX_SIZE_BYTES : Int := 30 * 1024 * 1024

/-- `isMimeAllowed` (`resolvers.ts` lines 8-11): exact `application/pdf`, or
any of the allowed prefixes (so e.g. every `image/...` type). -/
def isMimeAllowed (mime : String) : Bool :=
  if mime == "application/pdf" then true
  else allowedMimeList.any (fun p => isPrefixB p.data mime.data)

/-- The `filename.replace(/[/\\]/g, "_")` step of `safeFilename`: every
forward or backward slash becomes an underscore. -/
def stripSeparators (s : String) : String :=
  String.mk (s.data.map (fun c => if c == '/' || c == '\\' then '_' else c))

/-- `safeFilename` (`resolvers.ts` lines 13-16): replace path separators,
then apply the runtime's NFKC normalization (passed in as `normalize`), then
truncate with `.slice(0, 200)` (modelled as the first 200 characters). Note
the replacement happens before normalization. -/
def safeFilename (normalize : String → String) (filename : String) : String :=
  String.mk ((normalize (stripSeparators filename)).data.take 200)

/-- Storage path built by `createUploadUrl`:
`private/{userId}/{year}/{month}/{assetId}-{safeName}`, with the calendar
component supplied by the environment. -/
def uploadStoragePath (env : Env) (uid filename : String) : String :=
  "private/" ++ uid ++ "/" ++ env.yearMonth ++ "/" ++ env.freshId ++ "-"
    ++ safeFilename env.normalize filename

/-- What `createUploadUrl` returns on success. -/
structure UploadUrlResult where
  assetId : String
  storagePath : String
  uploadUrl : String
  expiresAt : Nat
  nonce : String
deriving DecidableEq, Repr

/-- `createUploadUrl` resolver (`resolvers.ts` lines 102-192). Validation
(MIME, size) precedes every insert; the asset row is inserted with
`status: "uploading", version: 1`, the ticket with a 5-minute expiry
(`now + 5 * 60 * 1000` ms); a signed-URL failure throws after both inserts,
leaving the partial state in place. List inserts model the row inserts,
which in the model always succeed; `created_at`/`updated_at` take the
store's insert-time default, the current instant. -/
def createUploadUrl (env : Env) (db : DB) (userId : Option String)
    (filename mime : String) (size : Int) : DB × Except ErrCode UploadUrlResult :=
  match userId with
  | none => (db, .error .unauthenticated)
  | some uid =>
    if !isMimeAllowed mime then (db, .error .badRequest)
    else if size ≤ 0 || size > MAX_SIZE_BYTES then (db, .error .badRequest)
    else
      let expiresAt := env.now + 5 * 60 * 1000
      let safeName := safeFilename env.normalize filename
      let storagePath := uploadStoragePath env uid filename
      let asset : Asset :=
        ⟨env.freshId, uid, safeName, mime, size, storagePath, none,
         Status.uploading, 1, env.now, env.now⟩
      let ticket : UploadTicket :=
        ⟨env.freshId, uid, env.freshNonce, mime, size, storagePath, expiresAt, false⟩
      let db1 : DB :=
        { db with
          assets := db.assets ++ [asset]
          tickets := db.tickets ++ [ticket] }
      match env.signUpload storagePath with
      | none => (db1, .error .badRequest)
      | some url =>
        (db1, .ok ⟨env.freshId, storagePath, url, expiresAt, env.freshNonce⟩)

/-- `findUserIdByEmail` (`resolvers.ts` lines 17-29): scan the first
directory page for a case-insensitive email match; users without an email
never match. -/
def findUserIdByEmail (users : List DirUser) (email : String) : Option String :=
  (users.find? (fun u =>
    match u.email with
    | some e => toLowerStr e == toLowerStr email
    | none => false)).map (fun u => u.id)

/-- `.from("asset_share").upsert(row, onConflict "asset_id,to_user")`:
overwrite `can_download` on an existing `(asset_id, to_user)` row, else
insert. -/
def upsertShare (l : List AssetShare) (s : AssetShare) : List AssetShare :=
  if l.any (fun x => x.asset_id == s.asset_id && x.to_user == s.to_user) then
    l.map (fun x =>
      if x.asset_id == s.asset_id && x.to_user == s.to_user then
        { x with can_download := s.can_download }
      else x)
  else l ++ [s]

/-- The version-bump update performed at the end of `shareAsset` and
`revokeShare`: `version: asset.version + 1, updated_at: now`. -/
def bumpVersion (env : Env) (asset : Asset) : Asset → Asset :=
  fun a => { a with version := asset.version + 1, updated_at := env.now }

/-- `shareAsset` resolver (`resolvers.ts` lines 341-453): owner + version
checks, directory lookup, self-share early return, upsert of the share row,
then version bump on the asset. -/
def shareAsset (env : Env) (db : DB) (userId : Option String)
    (assetId toEmail : String) (canDownload : Bool) (version : Int) :
    DB × Except ErrCode AssetView :=
  match userId with
  | none => (db, .error .unauthenticated)
  | some uid =>
    match findAsset db assetId with
    | none => (db, .error .notFound)
    | some asset =>
      if asset.owner_id ≠ uid then (db, .error .forbidden)
      else if asset.version ≠ version then (db, .error .versionConflict)
      else
        match findUserIdByEmail env.users toEmail with
        | none => (db, .error .notFound)
        | some toUserId =>
          if toUserId == uid then (db, .ok asset.toView)
          else
            let db1 : DB :=
              { db with
                shares := upsertShare db.shares ⟨assetId, toUserId, canDownload⟩
                assets := updateAssets db.assets assetId (bumpVersion env asset) }
            (db1, .ok (bumpVersion env asset asset).toView)

/-- `revokeShare` resolver (`resolvers.ts` lines 455-530): owner + version
checks; if the directory lookup fails, nothing is deleted but the call still
succeeds; the asset version is bumped unconditionally afterwards. -/
def revokeShare (env : Env) (db : DB) (userId : Option String)
    (assetId toEmail : String) (version : Int) : DB × Except ErrCode AssetView :=
  match userId with
  | none => (db, .error .unauthenticated)
  | some uid =>
    match findAsset db assetId with
    | none => (db, .error .notFound)
    | some asset =>
      if asset.owner_id ≠ uid then (db, .error .forbidden)
      else if asset.version ≠ version then (db, .error .versionConflict)
      else
        let shares1 :=
          match findUserIdByEmail env.users toEmail with
          | none => db.shares
          | some toUserId =>
            db.shares.filter (fun x => !(x.asset_id == assetId && x.to_user == toUserId))
        let db1 : DB :=
          { db with
            shares := shares1
            assets := updateAssets db.assets assetId (bumpVersion env asset) }
        (db1, .ok (bumpVersion env asset asset).toView)

/-- `deleteAsset` resolver (`resolvers.ts` lines 531-581): owner + version
checks, then a hard delete of the asset row; tickets and shares are not
cleaned up. -/
def deleteAsset (db : DB) (userId : Option String) (assetId : String)
    (version : Int) : DB × Except ErrCode Bool :=
  match userId with
  | none => (db, .error .unauthenticated)
  | some uid =>
    match findAsset db assetId with
    | none => (db, .error .notFound)
    | some asset =>
      if asset.owner_id ≠ uid then (db, .error .forbidden)
      else if asset.version ≠ version then (db, .error .versionConflict)
      else
        ({ db with assets := db.assets.filter (fun a => !(a.id == assetId)) },
         .ok true)

/-- `getDownloadUrl` resolver (`resolvers.ts` lines 582-626): owner check
only — the asset's `status` is never consulted — then a 120-second signed
read URL for the stored path. -/
def getDownloadUrl (env : Env) (db : DB) (userId : Option String)
    (assetId : String) : DB × Except ErrCode String :=
  match userId with
  | none => (db, .error .unauthenticated)
  | some uid =>
    match findAsset db assetId with
    | none => (db, .error .notFound)
    | some asset =>
      if asset.owner_id ≠ uid then (db, .error .forbidden)
      else
        match env.signRead asset.storage_path 120 with
        | none => (db, .error .badRequest)
        | some url => (db, .ok url)

/-- Boolean "occurs as a contiguous sublist", used to model SQL `ilike`. -/
def isInfixB (needle : List Char) : List Char → Bool
  | [] => isPrefixB needle []
  | hay => isPrefixB needle hay ||
      match hay with
      | [] => false
      | _ :: tl => isInfixB needle tl

/-- `query.ilike("filename", pat)` with the pattern built as
a percent-wrapped `q.trim()`: case-insensitive substring match. -/
def ilikeContains (filename pat : String) : Bool :=
  isInfixB (toLowerStr pat).data (toLowerStr filename).data

/-- The effective page size of `myAssets` (`resolvers.ts` lines 46-47):
`args.first && args.first > 0 && args.first <= 50 ? args.first : 20` — any
absent, non-positive, or over-50 `first` falls back to 20. -/
def pageLimit (first : Option Int) : Nat :=
  match first with
  | some n => if 0 < n && n ≤ 50 then n.toNat else 20
  | none => 20

/-- The row filter of the `myAssets` query: the `created_at < after` cursor
condition when a cursor is supplied, and the `ilike` filename filter when
`q` is present with nonempty trim (a falsy `q` — absent or empty — applies
no filter, matching `args.q && args.q.trim().length`). -/
def rowMatches (after : Option Nat) (q : Option String) (a : Asset) : Bool :=
  (match after with
   | some c => decide (a.created_at < c)
   | none => true) &&
  (match q with
   | some s => if (trimStr s).length != 0 then ilikeContains a.filename (trimStr s) else true
   | none => true)

/-- `order("created_at", descending)`: newest first. -/
def byCreatedDesc (a b : Asset) : Bool :=
  decide (b.created_at ≤ a.created_at)

/-- Descending insertion step for the store's `ORDER BY created_at DESC`. -/
def insertDesc (a : Asset) : List Asset → List Asset
  | [] => [a]
  | b :: l => if byCreatedDesc a b then a :: b :: l else b :: insertDesc a l

/-- The store's `ORDER BY created_at DESC`, modelled as insertion sort. -/
def sortByCreatedDesc : List Asset → List Asset
  | [] => []
  | a :: l => insertDesc a (sortByCreatedDesc l)

/-- The rows the store hands back: matching rows, newest first, limited to
`limit + 1` (the over-fetch used to detect a next page). -/
def myAssetsQueryRows (db : DB) (after : Option Nat) (q : Option String)
    (limit : Nat) : List Asset :=
  (sortByCreatedDesc (db.assets.filter (rowMatches after q))).take (limit + 1)

/-- `pageInfo` of the connection returned by `myAssets`. -/
structure PageInfo where
  endCursor : Option Nat
  hasNextPage : Bool
deriving DecidableEq, Repr

/-- One edge of the connection: the cursor is the row's `created_at`. -/
structure Edge where
  cursor : Nat
  node : AssetView
deriving DecidableEq, Repr

/-- The connection shape returned by `myAssets`. -/
structure AssetConnection where
  edges : List Edge
  pageInfo : PageInfo
deriving DecidableEq, Repr

/-- The connection `myAssets` builds once authenticated (`resolvers.ts`
lines 72-97): over-fetched rows, `hasNextPage` from the over-fetch, the
slice of at most `limit` rows, and the last slice row's `created_at` as
`endCursor`. The list passed in `db.assets` stands for the rows visible to
the caller — row-level security is enforced by the external store. -/
def myAssetsConn (db : DB) (after : Option Nat) (first : Option Int)
    (q : Option String) : AssetConnection :=
  let limit := pageLimit first
  let data := myAssetsQueryRows db after q limit
  let hasNextPage := decide (data.length > limit)
  let slice := if hasNextPage then data.take limit else data
  ⟨slice.map (fun a => ⟨a.created_at, a.toView⟩),
   ⟨(slice.getLast?).map (fun a => a.created_at), hasNextPage⟩⟩

/-- `myAssets` query resolver (`resolvers.ts` lines 35-98). -/
def myAssets (db : DB) (userId : Option String) (after : Option Nat)
    (first : Option Int) (q : Option String) : Except ErrCode AssetConnection :=
  match userId with
  | none => .error .unauthenticated
  | some _ => .ok (myAssetsConn db after first q)

/-! ### Concrete fixtures used to instantiate the theorems -/

/-- An identity stand-in for the normalization primitive, used where the
normalization content is irrelevant. -/
def idNormalize : String → String := fun s => s

/-- A concrete environment: time 100, one downloadable object at path `p1`
hashing to `h7`, working signed URLs, a two-user directory. -/
def envW : Env :=
  { now := 100
    freshId := "asset-1"
    freshNonce := "nonce-1"
    yearMonth := "2026/10"
    normalize := idNormalize
    sha256 := fun bytes => if bytes == [7] then "h7" else "h0"
    download := fun p => if p == "p1" then some [7] else none
    signUpload := fun _ => some ("up-url")
    signRead := fun _ _ => some ("dl-url")
    users := [⟨"u1", some ("owner@x.test")⟩, ⟨"u2", some ("friend@x.test")⟩] }

/-- An asset owned by `u1`, version 1, still uploading, stored at `p1`. -/
def assetW : Asset :=
  ⟨"a1", "u1", "file.png", "image/png", 5, "p1", none, Status.uploading, 1, 50, 50⟩

/-- The unused, unexpired (expires at 200 > 100) ticket for `assetW`. -/
def ticketW : UploadTicket :=
  ⟨"a1", "u1", "n1", "image/png", 5, "p1", 200, false⟩

/-- A one-asset database. -/
def dbW : DB := ⟨[assetW], [ticketW], []⟩

/-! ### Helper lemmas -/

/-- `find?` over a keyed update rewrites the found record, provided the
update preserves the key predicate. -/
theorem find?_map_if {α : Type} (p : α → Bool) (f : α → α)
    (hp : ∀ x, p (f x) = p x) :
    ∀ (l : List α) (a : α), l.find? p = some a →
      (l.map (fun x => if p x then f x else x)).find? p = some (f a) := by
  intro l
  induction l with
  | nil =>
    intro a h
    simp at h
  | cons x xs ih =>
    intro a h
    cases hx : p x with
    | true =>
      rw [List.find?_cons_of_pos _ hx] at h
      injection h with h
      subst h
      have hfx : p (f x) = true := (hp x).trans hx
      simp only [List.map_cons]
      rw [if_pos hx, List.find?_cons_of_pos _ hfx]
    | false =>
      have hx' : ¬ p x = true := by simp [hx]
      rw [List.find?_cons_of_neg _ hx'] at h
      simp only [List.map_cons]
      rw [if_neg hx', List.find?_cons_of_neg _ hx']
      exact ih a h

/-- Updating by asset id rewrites exactly the record `find?` returns, for
updates that do not touch the id. -/
theorem find?_updateAssets (l : List Asset) (assetId : String) (f : Asset → Asset)
    (hid : ∀ x, (f x).id = x.id) (a : Asset)
    (h : l.find? (fun x => x.id == assetId) = some a) :
    (updateAssets l assetId f).find? (fun x => x.id == assetId) = some (f a) :=
  find?_map_if (fun x => x.id == assetId) f (fun x => by simp [hid]) l a h

/-- Ticket analogue of `find?_updateAssets`. -/
theorem find?_updateTickets (l : List UploadTicket) (assetId : String)
    (f : UploadTicket → UploadTicket)
    (hid : ∀ x, (f x).asset_id = x.asset_id) (t : UploadTicket)
    (h : l.find? (fun x => x.asset_id == assetId) = some t) :
    (updateTickets l assetId f).find? (fun x => x.asset_id == assetId) = some (f t) :=
  find?_map_if (fun x => x.asset_id == assetId) f (fun x => by simp [hid]) l t h

/-- The single evaluation lemma for `finalizeUpload`'s hashing path: once
every guard has passed and the download succeeds, the call performs exactly
the asset update `finalizeUpd` and marks the ticket used, and the result is
the updated view on a hash match and an integrity error otherwise. -/
theorem finalizeUpload_run (env : Env) (db : DB) (uid assetId clientSha256 : String)
    (version : Int) (asset : Asset) (ticket : UploadTicket) (bytes : List Nat)
    (hA : findAsset db assetId = some asset)
    (hOwn : asset.owner_id = uid)
    (hVer : asset.version = version)
    (hT : findTicket db assetId = some ticket)
    (hTOwn : ticket.user_id = uid)
    (hUsed : ticket.used = false)
    (hExp : ¬ ticket.expires_at < env.now)
    (hDl : env.download ticket.storage_path = some bytes) :
    finalizeUpload env db (some uid) assetId clientSha256 version =
      ({ db with
         assets := updateAssets db.assets assetId (finalizeUpd env clientSha256 bytes version)
         tickets := updateTickets db.tickets assetId (fun t => { t with used := true }) },
       if env.sha256 bytes == clientSha256 then
         .ok (finalizeUpd env clientSha256 bytes version asset).toView
       else .error .integrityError) := by
  by_cases hEq : env.sha256 bytes = clientSha256 <;>
    simp [finalizeUpload, hA, hOwn, hVer, hT, hTOwn, hUsed, hExp, hDl, hEq]

/-! ### Claim theorems -/

/-- C1: for every `finalizeUpload` call that passes the not-found,
ownership, version, ticket, and expiry checks (with an unused ticket) and
whose object downloads successfully: on a hash match the asset becomes
`ready` with the computed hash stored and the call returns the updated
asset; on a mismatch the asset becomes `corrupt` and the call fails with an
IntegrityError; in both cases the version is incremented exactly once and
the ticket is marked used. -/
theorem finalizeUpload_integrity (env : Env) (db : DB)
    (uid assetId clientSha256 : String) (version : Int)
    (asset : Asset) (ticket : UploadTicket) (bytes : List Nat)
    (hA : findAsset db assetId = some asset)
    (hOwn : asset.owner_id = uid)
    (hVer : asset.version = version)
    (hT : findTicket db assetId = some ticket)
    (hTOwn : ticket.user_id = uid)
    (hUsed : ticket.used = false)
    (hExp : ¬ ticket.expires_at < env.now)
    (hDl : env.download ticket.storage_path = some bytes) :
    findAsset (finalizeUpload env db (some uid) assetId clientSha256 version).1 assetId =
      some (finalizeUpd env clientSha256 bytes version asset) ∧
    findTicket (finalizeUpload env db (some uid) assetId clientSha256 version).1 assetId =
      some { ticket with used := true } ∧
    (finalizeUpd env clientSha256 bytes version asset).version = asset.version + 1 ∧
    (finalizeUpd env clientSha256 bytes version asset).sha256 = some (env.sha256 bytes) ∧
    (env.sha256 bytes = clientSha256 →
      (finalizeUpd env clientSha256 bytes version asset).status = Status.ready ∧
      (finalizeUpload env db (some uid) assetId clientSha256 version).2 =
        .ok (finalizeUpd env clientSha256 bytes version asset).toView) ∧
    (env.sha256 bytes ≠ clientSha256 →
      (finalizeUpd env clientSha256 bytes version asset).status = Status.corrupt ∧
      (finalizeUpload env db (some uid) assetId clientSha256 version).2 =
        .error .integrityError) := by
  have hrun := finalizeUpload_run env db uid assetId clientSha256 version asset ticket bytes
    hA hOwn hVer hT hTOwn hUsed hExp hDl
  refine ⟨?_, ?_, ?_, ?_, ?_, ?_⟩
  · rw [hrun]
    exact find?_updateAssets db.assets assetId
      (finalizeUpd env clientSha256 bytes version) (fun x => rfl) asset hA
  · rw [hrun]
    exact find?_updateTickets db.tickets assetId
      (fun t => { t with used := true }) (fun x => rfl) ticket hT
  · rw [hVer]; rfl
  · rfl
  · intro hEq
    constructor
    · simp [finalizeUpd, hEq]
    · rw [hrun]; simp [hEq]
  · intro hNe
    constructor
    · simp [finalizeUpd, hNe]
    · rw [hrun]; simp [hNe]

/-- Witness for C1 at the concrete fixture: finalizing `assetW` with the
claimed hash `h7` (the true hash of the stored bytes `[7]`) succeeds and
returns the `ready` record at version 2. -/
theorem finalizeUpload_integrity_witness :
    (finalizeUpload envW dbW (some ("u1")) "a1" "h7" 1).2 =
      .ok (finalizeUpd envW "h7" [7] 1 assetW).toView ∧
    (finalizeUpd envW "h7" [7] 1 assetW).status = Status.ready := by
  have h := finalizeUpload_integrity envW dbW "u1" "a1" "h7" 1 assetW ticketW [7]
    rfl rfl rfl rfl rfl rfl (by decide) rfl
  have hm := h.2.2.2.2.1 (by decide)
  exact ⟨hm.2, hm.1⟩

/-- C2 counterexample: a literal repeat of a successful finalize call — same
asset id, same claimed hash `h7`, same version number 1 — does not return
the same asset state: the first call succeeds (and bumps the stored version
to 2), while the repeat fails with a VersionConflict, because the version
guard (`resolvers.ts` line 227) runs before the ticket-used idempotence
check (line 252). -/
theorem finalizeUpload_repeat_counterexample :
    (finalizeUpload envW dbW (some ("u1")) "a1" "h7" 1).2 =
      .ok (finalizeUpd envW "h7" [7] 1 assetW).toView ∧
    (finalizeUpload envW (finalizeUpload envW dbW (some ("u1")) "a1" "h7" 1).1
        (some ("u1")) "a1" "h7" 1).2 = .error .versionConflict := by
  exact ⟨rfl, rfl⟩

/-- C2 amended: after a successful finalize, calling `finalizeUpload` again
for the same asset with the same claimed hash and the *current* (already
incremented) version number returns exactly the same state and asset view as
the first call, without re-verifying: the used-ticket idempotence path. A
repeat with the original version number instead fails with VersionConflict. -/
theorem finalizeUpload_idempotent (env : Env) (db : DB)
    (uid assetId clientSha256 : String) (version : Int)
    (asset : Asset) (ticket : UploadTicket) (bytes : List Nat)
    (hA : findAsset db assetId = some asset)
    (hOwn : asset.owner_id = uid)
    (hVer : asset.version = version)
    (hT : findTicket db assetId = some ticket)
    (hTOwn : ticket.user_id = uid)
    (hUsed : ticket.used = false)
    (hExp : ¬ ticket.expires_at < env.now)
    (hDl : env.download ticket.storage_path = some bytes)
    (hEq : env.sha256 bytes = clientSha256) :
    finalizeUpload env (finalizeUpload env db (some uid) assetId clientSha256 version).1
        (some uid) assetId clientSha256 (version + 1) =
      finalizeUpload env db (some uid) assetId clientSha256 version := by
  have hrun := finalizeUpload_run env db uid assetId clientSha256 version asset ticket bytes
    hA hOwn hVer hT hTOwn hUsed hExp hDl
  have hA1 : findAsset (finalizeUpload env db (some uid) assetId clientSha256 version).1
      assetId = some (finalizeUpd env clientSha256 bytes version asset) := by
    rw [hrun]
    exact find?_updateAssets db.assets assetId
      (finalizeUpd env clientSha256 bytes version) (fun x => rfl) asset hA
  have hT1 : findTicket (finalizeUpload env db (some uid) assetId clientSha256 version).1
      assetId = some { ticket with used := true } := by
    rw [hrun]
    exact find?_updateTickets db.tickets assetId
      (fun t => { t with used := true }) (fun x => rfl) ticket hT
  have hOwn1 : (finalizeUpd env clientSha256 bytes version asset).owner_id = uid := hOwn
  have hv : (finalizeUpd env clientSha256 bytes version asset).version = version + 1 := rfl
  have key : ∀ st : DB,
      findAsset st assetId = some (finalizeUpd env clientSha256 bytes version asset) →
      findTicket st assetId = some { ticket with used := true } →
      finalizeUpload env st (some uid) assetId clientSha256 (version + 1) =
        (st, .ok (finalizeUpd env clientSha256 bytes version asset).toView) := by
    intro st h1 h2
    simp [finalizeUpload, h1, h2, hOwn1, hv, hTOwn]
  rw [key _ hA1 hT1, hrun]
  simp [hEq]

/-- Witness for the amended C2 at the fixture: the repeat call with the
incremented version 2 reproduces the first call's result exactly. -/
theorem finalizeUpload_idempotent_witness :
    finalizeUpload envW (finalizeUpload envW dbW (some ("u1")) "a1" "h7" 1).1
        (some ("u1")) "a1" "h7" 2 =
      finalizeUpload envW dbW (some ("u1")) "a1" "h7" 1 := by
  have h := finalizeUpload_idempotent envW dbW "u1" "a1" "h7" 1 assetW ticketW [7]
    rfl rfl rfl rfl rfl rfl (by decide) rfl (by decide)
  exact h

/-- An environment identical to `envW` except that every object-store
download fails. -/
def envN : Env := { envW with download := fun _ => none }

/-- C3 counterexample: when the stored object cannot be downloaded, finalize
writes the asset record — the status changes from `uploading` to `corrupt`
— but leaves `version` unchanged at 1 (`resolvers.ts` lines 280-289 update
only `status`), refuting "the asset's version field is incremented by
exactly 1; no write to an asset record leaves its version unchanged". -/
theorem version_increment_counterexample :
    findAsset (finalizeUpload envN dbW (some ("u1")) "a1" "h7" 1).1 "a1" =
      some { assetW with status := Status.corrupt } ∧
    assetW.status ≠ Status.corrupt ∧
    ({ assetW with status := Status.corrupt } : Asset).version = assetW.version ∧
    (finalizeUpload envN dbW (some ("u1")) "a1" "h7" 1).2 = .error .integrityError := by
  exact ⟨rfl, by decide, rfl, rfl⟩

/-- C3 amended: every accepted mutating write to an asset record increments
its version by exactly 1 — the hashing path of finalize, a non-self share,
and a revoke — with one exception the counterexample forces: the
corrupt-marking performed when the stored object cannot be downloaded
changes the status but leaves the version (and the ticket) unchanged. -/
theorem asset_version_mutations (env : Env) (db : DB)
    (uid assetId clientSha256 toEmail : String) (canDownload : Bool) (version : Int)
    (asset : Asset)
    (hA : findAsset db assetId = some asset)
    (hOwn : asset.owner_id = uid)
    (hVer : asset.version = version) :
    (∀ ticket, findTicket db assetId = some ticket → ticket.user_id = uid →
      ticket.used = false → ¬ ticket.expires_at < env.now →
      env.download ticket.storage_path = none →
      findAsset (finalizeUpload env db (some uid) assetId clientSha256 version).1 assetId =
        some { asset with status := Status.corrupt } ∧
      (finalizeUpload env db (some uid) assetId clientSha256 version).1.tickets =
        db.tickets ∧
      (finalizeUpload env db (some uid) assetId clientSha256 version).2 =
        .error .integrityError) ∧
    (∀ ticket bytes, findTicket db assetId = some ticket → ticket.user_id = uid →
      ticket.used = false → ¬ ticket.expires_at < env.now →
      env.download ticket.storage_path = some bytes →
      findAsset (finalizeUpload env db (some uid) assetId clientSha256 version).1 assetId =
        some (finalizeUpd env clientSha256 bytes version asset) ∧
      (finalizeUpd env clientSha256 bytes version asset).version = asset.version + 1) ∧
    (∀ toUserId, findUserIdByEmail env.users toEmail = some toUserId → ¬ toUserId = uid →
      findAsset (shareAsset env db (some uid) assetId toEmail canDownload version).1 assetId =
        some (bumpVersion env asset asset) ∧
      (bumpVersion env asset asset).version = asset.version + 1) ∧
    (findAsset (revokeShare env db (some uid) assetId toEmail version).1 assetId =
        some (bumpVersion env asset asset) ∧
      (bumpVersion env asset asset).version = asset.version + 1) := by
  refine ⟨?_, ?_, ?_, ?_⟩
  · intro ticket hT hTOwn hUsed hExp hDl
    have hrunN : finalizeUpload env db (some uid) assetId clientSha256 version =
        ({ db with assets :=
            updateAssets db.assets assetId (fun a => { a with status := Status.corrupt }) },
         .error .integrityError) := by
      simp [finalizeUpload, hA, hOwn, hVer, hT, hTOwn, hUsed, hExp, hDl]
    rw [hrunN]
    exact ⟨find?_updateAssets db.assets assetId
      (fun a => { a with status := Status.corrupt }) (fun x => rfl) asset hA, rfl, rfl⟩
  · intro ticket bytes hT hTOwn hUsed hExp hDl
    have hrun := finalizeUpload_run env db uid assetId clientSha256 version asset ticket bytes
      hA hOwn hVer hT hTOwn hUsed hExp hDl
    rw [hrun]
    refine ⟨find?_updateAssets db.assets assetId
      (finalizeUpd env clientSha256 bytes version) (fun x => rfl) asset hA, ?_⟩
    rw [hVer]
    rfl
  · intro toUserId hTo hNe
    have hrunS : shareAsset env db (some uid) assetId toEmail canDownload version =
        ({ db with
           shares := upsertShare db.shares ⟨assetId, toUserId, canDownload⟩
           assets := updateAssets db.assets assetId (bumpVersion env asset) },
         .ok (bumpVersion env asset asset).toView) := by
      simp [shareAsset, hA, hOwn, hVer, hTo, hNe]
    rw [hrunS]
    exact ⟨find?_updateAssets db.assets assetId
      (bumpVersion env asset) (fun x => rfl) asset hA, rfl⟩
  · have hrunR : (revokeShare env db (some uid) assetId toEmail version).1.assets =
        updateAssets db.assets assetId (bumpVersion env asset) := by
      simp [revokeShare, hA, hOwn, hVer]
    constructor
    · show (revokeShare env db (some uid) assetId toEmail version).1.assets.find?
        (fun x => x.id == assetId) = some (bumpVersion env asset asset)
      rw [hrunR]
      exact find?_updateAssets db.assets assetId
        (bumpVersion env asset) (fun x => rfl) asset hA
    · rfl

/-- Witness for the amended C3 at the fixture: revoking a share on `assetW`
(version-checked at 1) bumps the stored record to version 2. -/
theorem asset_version_mutations_witness :
    findAsset (revokeShare envW dbW (some ("u1")) "a1" "friend@x.test" 1).1 "a1" =
      some (bumpVersion envW assetW assetW) ∧
    (bumpVersion envW assetW assetW).version = assetW.version + 1 := by
  exact (asset_version_mutations envW dbW "u1" "a1" "h7" "friend@x.test" true 1 assetW
    rfl rfl rfl).2.2.2

/-- C4: whenever the caller owns an existing asset but supplies a version
different from the stored one, each of the four mutating resolvers fails
with VersionConflict and returns the store unchanged — no asset row, ticket
or share row is touched. -/
theorem versionConflict_no_write (env : Env) (db : DB)
    (uid assetId clientSha256 toEmail : String) (canDownload : Bool) (version : Int)
    (asset : Asset)
    (hA : findAsset db assetId = some asset)
    (hOwn : asset.owner_id = uid)
    (hVer : asset.version ≠ version) :
    finalizeUpload env db (some uid) assetId clientSha256 version =
      (db, .error .versionConflict) ∧
    shareAsset env db (some uid) assetId toEmail canDownload version =
      (db, .error .versionConflict) ∧
    revokeShare env db (some uid) assetId toEmail version =
      (db, .error .versionConflict) ∧
    deleteAsset db (some uid) assetId version =
      (db, .error .versionConflict) := by
  refine ⟨?_, ?_, ?_, ?_⟩ <;>
    simp [finalizeUpload, shareAsset, revokeShare, deleteAsset, hA, hOwn, hVer]

/-- Witness for C4 at the fixture: supplying stale version 7 against the
stored version 1 of `assetW` leaves the store unchanged and yields
VersionConflict on all four mutations. -/
theorem versionConflict_no_write_witness :
    finalizeUpload envW dbW (some ("u1")) "a1" "h7" 7 =
      (dbW, .error .versionConflict) ∧
    shareAsset envW dbW (some ("u1")) "a1" "friend@x.test" true 7 =
      (dbW, .error .versionConflict) ∧
    revokeShare envW dbW (some ("u1")) "a1" "friend@x.test" 7 =
      (dbW, .error .versionConflict) ∧
    deleteAsset dbW (some ("u1")) "a1" 7 =
      (dbW, .error .versionConflict) := by
  exact versionConflict_no_write envW dbW "u1" "a1" "h7" "friend@x.test" true 7 assetW
    rfl rfl (by decide)

/-- C5: a finalize call reaching an unused ticket whose `expiresAt` lies
strictly before the current instant fails with BadRequest and returns the
store unchanged — the ticket stays unused and the asset row untouched. -/
theorem finalizeUpload_expired (env : Env) (db : DB)
    (uid assetId clientSha256 : String) (version : Int)
    (asset : Asset) (ticket : UploadTicket)
    (hA : findAsset db assetId = some asset)
    (hOwn : asset.owner_id = uid)
    (hVer : asset.version = version)
    (hT : findTicket db assetId = some ticket)
    (hTOwn : ticket.user_id = uid)
    (hUsed : ticket.used = false)
    (hExp : ticket.expires_at < env.now) :
    finalizeUpload env db (some uid) assetId clientSha256 version =
      (db, .error .badRequest) := by
  simp [finalizeUpload, hA, hOwn, hVer, hT, hTOwn, hUsed, hExp]

/-- An environment identical to `envW` but whose clock has advanced past the
fixture ticket's expiry instant 200. -/
def envLate : Env := { envW with now := 300 }

/-- Witness for C5 at the fixture: at instant 300 the ticket expiring at 200
makes finalize fail with BadRequest and leaves the store unchanged. -/
theorem finalizeUpload_expired_witness :
    finalizeUpload envLate dbW (some ("u1")) "a1" "h7" 1 =
      (dbW, .error .badRequest) := by
  exact finalizeUpload_expired envLate dbW "u1" "a1" "h7" 1 assetW ticketW
    rfl rfl rfl rfl rfl rfl (by decide)

/-- C6: an authenticated `createUploadUrl` with an allowed MIME type and a
size in (0, 30 MiB] succeeds (given the object store signs the upload URL)
and appends exactly one fresh asset row at version 1 in `uploading` status
plus its ticket; any disallowed MIME or out-of-range size fails with
BadRequest and creates no rows. -/
theorem createUploadUrl_validation (env : Env) (db : DB)
    (uid filename mime : String) (size : Int) :
    (∀ url, isMimeAllowed mime = true → 0 < size → size ≤ MAX_SIZE_BYTES →
      env.signUpload (uploadStoragePath env uid filename) = some url →
      createUploadUrl env db (some uid) filename mime size =
        ({ db with
           assets := db.assets ++
             [⟨env.freshId, uid, safeFilename env.normalize filename, mime, size,
               uploadStoragePath env uid filename, none, Status.uploading, 1,
               env.now, env.now⟩]
           tickets := db.tickets ++
             [⟨env.freshId, uid, env.freshNonce, mime, size,
               uploadStoragePath env uid filename, env.now + 5 * 60 * 1000, false⟩] },
         .ok ⟨env.freshId, uploadStoragePath env uid filename, url,
           env.now + 5 * 60 * 1000, env.freshNonce⟩)) ∧
    (isMimeAllowed mime = false ∨ size ≤ 0 ∨ MAX_SIZE_BYTES < size →
      createUploadUrl env db (some uid) filename mime size =
        (db, .error .badRequest)) := by
  constructor
  · intro url hM hPos hLe hSign
    have h1 : ¬ size ≤ 0 := not_le.mpr hPos
    have h2 : ¬ MAX_SIZE_BYTES < size := not_lt.mpr hLe
    simp [createUploadUrl, hM, h1, h2, hSign]
  · intro h
    rcases h with hM | hS | hS
    · simp [createUploadUrl, hM]
    · cases hMA : isMimeAllowed mime <;> simp [createUploadUrl, hMA, hS]
    · cases hMA : isMimeAllowed mime <;> simp [createUploadUrl, hMA, hS]

/-- Witness for C6 at the fixture: a 5-byte `image/png` upload succeeds and
creates the version-1 `uploading` asset, while an `application/zip` request
is rejected with BadRequest and leaves the store unchanged. -/
theorem createUploadUrl_validation_witness :
    createUploadUrl envW dbW (some ("u1")) "file.png" "image/png" 5 =
      ({ dbW with
         assets := dbW.assets ++
           [⟨envW.freshId, "u1", safeFilename envW.normalize "file.png", "image/png", 5,
             uploadStoragePath envW "u1" "file.png", none, Status.uploading, 1,
             envW.now, envW.now⟩]
         tickets := dbW.tickets ++
           [⟨envW.freshId, "u1", envW.freshNonce, "image/png", 5,
             uploadStoragePath envW "u1" "file.png", envW.now + 5 * 60 * 1000, false⟩] },
       .ok ⟨envW.freshId, uploadStoragePath envW "u1" "file.png", "up-url",
         envW.now + 5 * 60 * 1000, envW.freshNonce⟩) ∧
    createUploadUrl envW dbW (some ("u1")) "file.png" "application/zip" 5 =
      (dbW, .error .badRequest) := by
  constructor
  · exact (createUploadUrl_validation envW dbW "u1" "file.png" "image/png" 5).1
      "up-url" (by decide) (by decide) (by decide) rfl
  · exact (createUploadUrl_validation envW dbW "u1" "file.png" "application/zip" 5).2
      (Or.inl (by decide))

/-- A character is a path separator: `/` or `\`. -/
def sepB (c : Char) : Bool := c == '/' || c == '\\'

/-- A string contains a path-separator character. -/
def hasSeparator (s : String) : Bool := s.data.any sepB

/-- Modelled from the Unicode standard: the runtime primitive
`String.prototype.normalize("NFKC")` is external to this repository; this
model covers the single compatibility mapping the development uses — U+FF0F
FULLWIDTH SOLIDUS carries the compatibility decomposition `<wide> U+002F`,
so NFKC maps it to the ordinary slash `/` — and is the identity on every
other character. -/
def nfkcChar (c : Char) : Char :=
  if c = Char.ofNat 0xFF0F then '/' else c

/-- String-level lifting of `nfkcChar`: a partial but faithful model of the
runtime's NFKC normalization on inputs whose only non-identity character is
U+FF0F. -/
def nfkcModel (s : String) : String := String.mk (s.data.map nfkcChar)

/-- A filename containing U+FF0F FULLWIDTH SOLIDUS — not itself a path
separator, so the replace step leaves it alone. -/
def fullwidthSolidusName : String := String.mk ['a', Char.ofNat 0xFF0F, 'b']

/-- C7 counterexample: `safeFilename` replaces separators *before* NFKC
normalization, and NFKC maps U+FF0F to `/`, so the sanitized output of
`a／b` is literally `a/b` — it contains a path separator, refuting the
claim for this input. -/
theorem safeFilename_separator_counterexample :
    safeFilename nfkcModel fullwidthSolidusName = "a/b" ∧
    hasSeparator (safeFilename nfkcModel fullwidthSolidusName) = true := by
  constructor <;> decide

/-- Every separator-replaced character is separator-free. -/
theorem sepB_replace (c : Char) :
    sepB (if c == '/' || c == '\\' then '_' else c) = false := by
  cases hx : (c == '/' || c == '\\') with
  | true =>
    rw [if_pos rfl]
    decide
  | false =>
    rw [if_neg (by decide)]
    exact hx

/-- The replace step alone leaves no separators. -/
theorem hasSeparator_strip (f : String) :
    hasSeparator (stripSeparators f) = false := by
  show ((f.data.map (fun c => if c == '/' || c == '\\' then '_' else c)).any sepB) = false
  rw [List.any_map, List.any_eq_false]
  intro c hc
  simp only [Function.comp]
  rw [sepB_replace c]
  simp

/-- A prefix of a separator-free character list is separator-free. -/
theorem hasSeparator_take (l : List Char) (n : Nat)
    (h : l.any sepB = false) : (l.take n).any sepB = false := by
  rw [List.any_eq_false] at h ⊢
  intro c hc
  exact h c (List.take_subset n l hc)

/-- C7 amended: for every normalization function and input, the sanitized
filename has at most 200 characters; the separator-replacement step removes
every `/` and `\` from the input *before* normalization, so the output is
separator-free provided the normalization step itself introduces no
separator (NFKC can introduce one, e.g. from U+FF0F, as the counterexample
shows); and the output is in the normalization's canonical form — it is a
200-character truncation of a normalized string, and the Unicode normal
forms are closed under truncation at character boundaries, a property of
the external primitive supplied here as a hypothesis on `normalize`. -/
theorem safeFilename_sanitizes (normalize : String → String) (filename : String) :
    (safeFilename normalize filename).length ≤ 200 ∧
    hasSeparator (stripSeparators filename) = false ∧
    (hasSeparator (normalize (stripSeparators filename)) = false →
      hasSeparator (safeFilename normalize filename) = false) ∧
    ((∀ s n, normalize (String.mk ((normalize s).data.take n)) =
        String.mk ((normalize s).data.take n)) →
      normalize (safeFilename normalize filename) = safeFilename normalize filename) := by
  refine ⟨?_, hasSeparator_strip filename, ?_, ?_⟩
  · show ((normalize (stripSeparators filename)).data.take 200).length ≤ 200
    rw [List.length_take]
    exact min_le_left _ _
  · intro h
    exact hasSeparator_take _ 200 h
  · intro h
    exact h (stripSeparators filename) 200

/-- Witness for the amended C7: with an identity normalization (trivially
truncation-closed) and the input `a/b`, the sanitized name is short,
separator-free, and a fixed point of the normalization. -/
theorem safeFilename_sanitizes_witness :
    (safeFilename idNormalize ("a/b")).length ≤ 200 ∧
    hasSeparator (safeFilename idNormalize ("a/b")) = false ∧
    idNormalize (safeFilename idNormalize ("a/b")) = safeFilename idNormalize ("a/b") := by
  have h := safeFilename_sanitizes idNormalize ("a/b")
  exact ⟨h.1, h.2.2.1 (by decide), h.2.2.2 (fun s n => rfl)⟩

/-- Inserting one element grows the sorted list by one. -/
theorem length_insertDesc (a : Asset) (l : List Asset) :
    (insertDesc a l).length = l.length + 1 := by
  induction l with
  | nil => rfl
  | cons b l ih =>
    show (if byCreatedDesc a b then a :: b :: l else b :: insertDesc a l).length =
      (b :: l).length + 1
    by_cases h : byCreatedDesc a b = true
    · rw [if_pos h]
      rfl
    · rw [if_neg h]
      simp [ih]

/-- Sorting preserves length. -/
theorem length_sortByCreatedDesc (l : List Asset) :
    (sortByCreatedDesc l).length = l.length := by
  induction l with
  | nil => rfl
  | cons a l ih =>
    show (insertDesc a (sortByCreatedDesc l)).length = l.length + 1
    rw [length_insertDesc, ih]

/-- One row of the C8 counterexample store. -/
def rowC (i : Nat) : Asset :=
  ⟨"r", "u1", "f", "image/png", 1, "p", none, Status.ready, 1, i, i⟩

/-- A store holding 21 assets, all matching an unfiltered listing. -/
def dbC : DB := ⟨(List.range 21).map rowC, [], []⟩

/-- C8 counterexample: with `first = 51` the effective page size the code
uses is 20, not a 50-cap (`resolvers.ts` lines 46-47 fall back to 20 for any
`first` outside 1..50). Over a 21-row store the call reports
`hasNextPage = true` although only 21 rows match and 21 is not greater than
50 — refuting the claimed cap and the claimed `hasNextPage` condition. -/
theorem myAssets_cap_counterexample :
    myAssets dbC (some ("u1")) none (some 51) none =
      .ok (myAssetsConn dbC none (some 51) none) ∧
    (myAssetsConn dbC none (some 51) none).pageInfo.hasNextPage = true ∧
    (dbC.assets.filter (rowMatches none none)).length = 21 ∧
    pageLimit (some 51) = 20 := by
  refine ⟨rfl, ?_, ?_, rfl⟩ <;> decide

/-- C8 amended: the effective page size is `first` when it lies in 1..50 and
20 otherwise (also when absent) — `pageLimit` — and for every listing call:
at most that many edges are returned, and `hasNextPage` is true exactly when
more matching rows than the effective page size exist beyond the cursor. -/
theorem myAssets_pagination (db : DB) (uid : String) (after : Option Nat)
    (first : Option Int) (q : Option String) (conn : AssetConnection)
    (h : myAssets db (some uid) after first q = .ok conn) :
    conn.edges.length ≤ pageLimit first ∧
    (conn.pageInfo.hasNextPage = true ↔
      pageLimit first < (db.assets.filter (rowMatches after q)).length) ∧
    (∀ n : Int, first = some n → 0 < n → n ≤ 50 → pageLimit first = n.toNat) ∧
    (∀ n : Int, first = some n → n ≤ 0 ∨ 50 < n → pageLimit first = 20) ∧
    (first = none → pageLimit first = 20) := by
  have hconn : myAssetsConn db after first q = conn := by
    simpa [myAssets] using h
  subst hconn
  have hdata : (myAssetsQueryRows db after q (pageLimit first)).length =
      min (pageLimit first + 1) (db.assets.filter (rowMatches after q)).length := by
    simp [myAssetsQueryRows, List.length_take, length_sortByCreatedDesc]
  have hedges : (myAssetsConn db after first q).edges =
      (if decide ((myAssetsQueryRows db after q (pageLimit first)).length >
            pageLimit first) = true
       then (myAssetsQueryRows db after q (pageLimit first)).take (pageLimit first)
       else myAssetsQueryRows db after q (pageLimit first)).map
        (fun a => ⟨a.created_at, a.toView⟩) := rfl
  have hnext : (myAssetsConn db after first q).pageInfo.hasNextPage =
      decide ((myAssetsQueryRows db after q (pageLimit first)).length >
        pageLimit first) := rfl
  refine ⟨?_, ?_, ?_, ?_, ?_⟩
  · rw [hedges]
    cases hb : decide ((myAssetsQueryRows db after q (pageLimit first)).length >
        pageLimit first) with
    | true =>
      rw [if_pos rfl, List.length_map, List.length_take]
      omega
    | false =>
      rw [if_neg (by decide), List.length_map]
      have hle := of_decide_eq_false hb
      omega
  · rw [hnext, decide_eq_true_eq, gt_iff_lt, hdata]
    omega
  · intro n hn h1 h2
    subst hn
    simp [pageLimit, h1, h2]
  · intro n hn hout
    subst hn
    rcases hout with h0 | h50
    · have : ¬ (0 : Int) < n := not_lt.mpr h0
      simp [pageLimit, this]
    · have : ¬ n ≤ 50 := not_le.mpr h50
      simp [pageLimit, this]
  · intro hn
    subst hn
    rfl

/-- Witness for the amended C8 at the fixture: the default listing of the
one-asset store returns at most 20 edges, no next page, and the absent
`first` gives the effective page size 20. -/
theorem myAssets_pagination_witness :
    (myAssetsConn dbW none none none).edges.length ≤ pageLimit none ∧
    ((myAssetsConn dbW none none none).pageInfo.hasNextPage = true ↔
      pageLimit none < (dbW.assets.filter (rowMatches none none)).length) ∧
    pageLimit none = 20 := by
  have h := myAssets_pagination dbW ("u1") none none none
    (myAssetsConn dbW none none none) rfl
  exact ⟨h.1, h.2.1, h.2.2.2.2 rfl⟩

/-- C9: a `shareAsset` call that passes the ownership and version checks and
whose target email resolves to the caller's own id succeeds, returns the
asset at its unchanged version, and writes nothing — the store is returned
untouched. -/
theorem shareAsset_self_noop (env : Env) (db : DB) (uid assetId toEmail : String)
    (canDownload : Bool) (version : Int) (asset : Asset)
    (hA : findAsset db assetId = some asset)
    (hOwn : asset.owner_id = uid)
    (hVer : asset.version = version)
    (hSelf : findUserIdByEmail env.users toEmail = some uid) :
    shareAsset env db (some uid) assetId toEmail canDownload version =
      (db, .ok asset.toView) := by
  simp [shareAsset, hA, hOwn, hVer, hSelf]

/-- Witness for C9 at the fixture: sharing `assetW` with the owner's own
email is a no-op returning version 1. -/
theorem shareAsset_self_noop_witness :
    shareAsset envW dbW (some ("u1")) "a1" "owner@x.test" true 1 =
      (dbW, .ok assetW.toView) := by
  exact shareAsset_self_noop envW dbW ("u1") "a1" "owner@x.test" true 1 assetW
    rfl rfl rfl (by decide)

/-- C10: for every existing asset owned by the caller — whatever its status,
`uploading`, `ready` or `corrupt` — `getDownloadUrl` returns the 120-second
signed read URL the object store issues for the stored path, leaving the
store unchanged. -/
theorem getDownloadUrl_any_status (env : Env) (db : DB) (uid assetId url : String)
    (asset : Asset)
    (hA : findAsset db assetId = some asset)
    (hOwn : asset.owner_id = uid)
    (hSign : env.signRead asset.storage_path 120 = some url) :
    getDownloadUrl env db (some uid) assetId = (db, .ok url) := by
  simp [getDownloadUrl, hA, hOwn, hSign]

/-- The fixture asset marked corrupt, and a store holding only it. -/
def assetCorrupt : Asset := { assetW with status := Status.corrupt }

/-- A store whose only asset is `assetCorrupt`. -/
def dbCorrupt : DB := ⟨[assetCorrupt], [], []⟩

/-- Witness for C10: even a `corrupt` asset yields the signed download URL. -/
theorem getDownloadUrl_any_status_witness :
    getDownloadUrl envW dbCorrupt (some ("u1")) "a1" = (dbCorrupt, .ok ("dl-url")) := by
  exact getDownloadUrl_any_status envW dbCorrupt ("u1") "a1" ("dl-url") assetCorrupt
    rfl rfl rfl

end SecureMediaVault
